import Mathlib

/-!
# Verification of the `allocators` crate (linear allocator + scoped scratch)

Shallow embedding of `src/allocators/src/linear_allocator.rs` and
`src/allocators/src/scoped_scratch.rs`.

Modelling conventions:
* Raw pointers become natural-number addresses.  `std::alloc::alloc(layout)`
  returns an abstract address `blockStart`; the layout guarantees it is
  64-byte aligned, which appears as a hypothesis (`64 ∣ blockStart`) where a
  theorem needs it.
* `usize`/`isize` arithmetic in the allocation path never overflows (the code
  asserts `size_bytes < isize::MAX / 2` and `size_bytes < isize::MAX`
  precisely so that the additions fit), so `Nat` arithmetic is faithful.
* Rust panics (`assert!`, the `panic!` in `alloc_internal`) are modelled as
  `Except.error` values, carrying the data the panic message reports.
  Functions return the post-state alongside the result; in a panic branch the
  returned state is the state at the moment of the panic (the code mutates
  `next_alloc` only after all checks pass).
* `<*mut u8>::align_offset(a)` on a byte pointer `p` with a power-of-two
  alignment `a` is `(a - p % a) % a` (the distance to the next multiple of
  `a`); for byte pointers it never returns `usize::MAX`, so the
  `assert_ne!(align_offset, usize::MAX)` in the source never fires and is not
  a reachable failure branch of the model.
-/

/-- Decidable equality for `Except`, so that concrete runs of the model can
be checked by `decide`. -/
instance {ε α : Type} [DecidableEq ε] [DecidableEq α] :
    DecidableEq (Except ε α) := fun x y =>
  match x, y with
  | .ok a, .ok b =>
    if h : a = b then isTrue (by rw [h])
    else isFalse (fun hc => h (Except.ok.inj hc))
  | .error e, .error f =>
    if h : e = f then isTrue (by rw [h])
    else isFalse (fun hc => h (Except.error.inj hc))
  | .ok _, .error _ => isFalse (fun hc => Except.noConfusion hc)
  | .error _, .ok _ => isFalse (fun hc => Except.noConfusion hc)

/-- Value of `isize::MAX` on the 64-bit targets the crate is written for. -/
def isizeMax : Nat := 2 ^ 63 - 1

/-- Rust's `ptr.align_offset(a)` for a byte pointer at address `p`: the number of
padding bytes needed to reach the next address that is a multiple of `a`. -/
def alignOffset (p a : Nat) : Nat := (a - p % a) % a

/-- Failure modes of `LinearAllocator::alloc_internal`.  Both are `panic!`s in
the Rust source; the payloads are the values interpolated into the messages. -/
inductive AllocError where
  /-- The check `assert!(size_bytes < (isize::MAX / 2) as usize)` failed. -/
  | sizeAssertFailed (sizeBytes : Nat)
  /-- The call `panic!("Tried to allocate {} bytes aligned at {} with only {} remaining.")` -/
  | outOfMemory (sizeBytes alignment remainingBytes : Nat)
  deriving Repr, DecidableEq

/-- Failure modes of `LinearAllocator::new` (all are panic-class). -/
inductive CreateError where
  /-- The check `assert_ne!(size_bytes, 0, "Cannot create an allocator with size 0")` -/
  | sizeZero
  /-- The check `assert!(size_bytes < isize::MAX as usize)` failed. -/
  | sizeTooLarge
  /-- The call `Layout::from_size_align(size_bytes, 64)` returned `Err` (the rounded-up
  size would exceed `isize::MAX`) and the `.expect` panicked. -/
  | layoutError
  deriving Repr, DecidableEq

/-- The debug assertion in `LinearAllocator::rewind` failed
(`"alloc doesn't belong to this allocator"`). -/
inductive RewindError where
  | assertFailed
  deriving Repr, DecidableEq

/-- Rust's `struct LinearAllocator { block_start, layout, size_bytes, next_alloc }`.
Addresses are absolute (`Nat`); `layoutSize`/`layoutAlign` are the fields of
the stored `Layout`. -/
structure LinearAllocator where
  blockStart : Nat
  layoutSize : Nat
  layoutAlign : Nat
  sizeBytes : Nat
  nextAlloc : Nat
  deriving Repr, DecidableEq

/-- Rust's `Layout::from_size_align(size, align)` for a power-of-two `align`:
succeeds iff `size`, rounded up to a multiple of `align`, does not exceed
`isize::MAX`, i.e. iff `size ≤ isize::MAX - (align - 1)`. -/
def layoutFromSizeAlign (size align : Nat) : Option (Nat × Nat) :=
  if size ≤ isizeMax - (align - 1) then some (size, align) else none

/-- Constructor `LinearAllocator::new(size_bytes)`.  `blockStart` is the address returned
by `std::alloc::alloc` for the cache-line-aligned layout (the model takes it
as a parameter; a successful backing allocation is assumed, so
`handle_alloc_error` is not modelled). -/
def LinearAllocator.new (blockStart sizeBytes : Nat) :
    Except CreateError LinearAllocator :=
  if sizeBytes = 0 then .error .sizeZero
  else if ¬ sizeBytes < isizeMax then .error .sizeTooLarge
  else match layoutFromSizeAlign sizeBytes 64 with
    | none => .error .layoutError
    | some (lsize, lalign) =>
      .ok { blockStart := blockStart
            layoutSize := lsize
            layoutAlign := lalign
            sizeBytes := sizeBytes
            nextAlloc := blockStart }

/-- Function `LinearAllocator::alloc_internal::<T>(obj)` for a `T` of the given size
and alignment.  Returns the address of the written object together with the
post-state; on a panic the state is returned unchanged (the code panics before
touching `next_alloc`). -/
def LinearAllocator.alloc_internal (la : LinearAllocator)
    (sizeBytes alignment : Nat) : Except AllocError Nat × LinearAllocator :=
  if ¬ sizeBytes < isizeMax / 2 then
    (.error (.sizeAssertFailed sizeBytes), la)
  else
    let next := la.nextAlloc
    let alignOff := alignOffset next alignment
    let previousSize := next - la.blockStart
    let newSize := previousSize + alignOff + sizeBytes
    if newSize > la.sizeBytes then
      (.error (.outOfMemory sizeBytes alignment (la.sizeBytes - previousSize)),
       la)
    else
      (.ok (next + alignOff),
       { la with nextAlloc := next + alignOff + sizeBytes })

/-- Function `LinearAllocator::peek()`. -/
def LinearAllocator.peek (la : LinearAllocator) : Nat := la.nextAlloc

/-- The unconditional effect of `LinearAllocator::rewind`:
`self.next_alloc.replace(alloc)`.  (In release builds the `debug_assert!` is
compiled out and this is the whole function.) -/
def LinearAllocator.rewind (la : LinearAllocator) (alloc : Nat) :
    LinearAllocator :=
  { la with nextAlloc := alloc }

/-- Function `LinearAllocator::rewind` with the `debug_assert!` active (debug builds):
the call panics unless
`block_start ≤ alloc ∧ alloc < block_start + size_bytes`. -/
def LinearAllocator.rewind_checked (la : LinearAllocator) (alloc : Nat) :
    Except RewindError LinearAllocator :=
  if la.blockStart ≤ alloc ∧ alloc < la.blockStart + la.sizeBytes then
    .ok (la.rewind alloc)
  else
    .error .assertFailed

/-- The documented cursor invariant:
`block_start ≤ next_alloc ≤ block_start + capacity`. -/
def LinearAllocator.WF (la : LinearAllocator) : Prop :=
  la.blockStart ≤ la.nextAlloc ∧
  la.nextAlloc ≤ la.blockStart + la.sizeBytes

instance (la : LinearAllocator) : Decidable la.WF := by
  unfold LinearAllocator.WF; infer_instance

/-!
## Scoped scratch (`scoped_scratch.rs`)

`struct ScopeData { mem, dtor, previous }` is a chain node bump-allocated in
the same block.  The `previous` links form a singly linked list, modelled as a
Lean `List` (head = most recently pushed node).  The type-erased destructor
closure is identified by the label of the object it was bound to; `dtor` is an
`Option` exactly as in the source (`ScopedScratch::alloc` always stores
`Some`).  On a 64-bit target the node occupies 32 bytes (raw pointer 8 +
`Option<&dyn Fn>` 16 + `Option<&ScopeData>` 8) at alignment 8.
-/

/-- One `ScopeData` node (without the `previous` link, which is the list
structure). -/
structure ScopeData where
  mem : Nat
  dtor : Option Nat
  deriving Repr, DecidableEq

/-- Value of `size_of::<ScopeData>()` on a 64-bit target. -/
def scopeDataSizeBytes : Nat := 32

/-- Value of `align_of::<ScopeData>()` on a 64-bit target. -/
def scopeDataAlignBytes : Nat := 8

/-- Rust's `struct ScopedScratch { allocator, alloc_start, data_chain, parent_locked,
locked }`.  The allocator reference and the `parent_locked` back-reference are
represented by explicit state passing (the nesting model below keeps parents
in a list), leaving the scope-local fields. -/
structure ScopedScratch where
  allocStart : Nat
  dataChain : List ScopeData
  locked : Bool
  deriving Repr, DecidableEq

/-- Constructor `ScopedScratch::new(allocator)` (and the scope-local part of
`new_scope`): captures `alloc_start = allocator.peek()`, empty chain,
unlocked. -/
def ScopedScratch.new (la : LinearAllocator) : ScopedScratch :=
  { allocStart := la.peek, dataChain := [], locked := false }

/-- Function `ScopedScratch::new_scope(&self)`: sets `*self.locked.borrow_mut() =
true` and returns a fresh child capturing the current cursor.  The source has
no check of the previous `locked` value; this is a total function returning
the updated parent and the child. -/
def ScopedScratch.new_scope (scr : ScopedScratch) (la : LinearAllocator) :
    ScopedScratch × ScopedScratch :=
  ({ scr with locked := true }, ScopedScratch.new la)

/-- One allocation request through a scope: `pod` for a `T` with
`needs_drop::<T>() = false`, `obj` (with a label identifying the object and
its bound destructor) for a `T` that needs drop. -/
inductive AllocReq where
  | pod (sizeBytes alignment : Nat)
  | obj (sizeBytes alignment : Nat) (label : Nat)
  deriving Repr, DecidableEq

/-- Failure modes of `ScopedScratch::alloc` (both panic-class). -/
inductive ScratchError where
  /-- The check `assert!(!*self.locked.borrow(), "Tried to allocate from a ScopedScratch
  that has an active child scope")` -/
  | scopeLocked
  /-- a failure propagated from `LinearAllocator::alloc_internal` -/
  | alloc (e : AllocError)
  deriving Repr, DecidableEq

/-- Function `ScopedScratch::alloc::<T>(obj)`.  Checks the lock, then either delegates
directly (`!needs_drop::<T>()`) or allocates a `ScopeData` node, allocates the
object, patches `mem` and pushes the node.  Returns the object's address and
the updated scope, plus the allocator state (also on panic: the panic happens
after any already-committed sub-allocation). -/
def ScopedScratch.alloc (scr : ScopedScratch) (la : LinearAllocator) :
    AllocReq → Except ScratchError (Nat × ScopedScratch) × LinearAllocator
  | .pod sizeBytes alignment =>
    if scr.locked then (.error .scopeLocked, la)
    else
      match la.alloc_internal sizeBytes alignment with
      | (.ok addr, la') => (.ok (addr, scr), la')
      | (.error e, la') => (.error (.alloc e), la')
  | .obj sizeBytes alignment label =>
    if scr.locked then (.error .scopeLocked, la)
    else
      match la.alloc_internal scopeDataSizeBytes scopeDataAlignBytes with
      | (.error e, la') => (.error (.alloc e), la')
      | (.ok _nodeAddr, la1) =>
        match la1.alloc_internal sizeBytes alignment with
        | (.error e, la2) => (.error (.alloc e), la2)
        | (.ok addr, la2) =>
          (.ok (addr,
              { scr with
                dataChain := { mem := addr, dtor := some label } :: scr.dataChain }),
           la2)

/-- Run a list of allocation requests through one scope.  A failing request
panics; unwinding then leaves the scope state as it was before the failing
call (`data_chain` is only updated after both sub-allocations succeed) and the
allocator in its at-panic state.  Later requests are not attempted. -/
def runScope (scr : ScopedScratch) (la : LinearAllocator) :
    List AllocReq → ScopedScratch × LinearAllocator
  | [] => (scr, la)
  | r :: rest =>
    match scr.alloc la r with
    | (.ok (_, scr'), la') => runScope scr' la' rest
    | (.error _, la') => (scr, la')

/-- Run a list of allocation requests through one scope, all of which must
succeed. -/
def runScopeE (scr : ScopedScratch) (la : LinearAllocator) :
    List AllocReq → Except ScratchError (ScopedScratch × LinearAllocator)
  | [] => .ok (scr, la)
  | r :: rest =>
    match scr.alloc la r with
    | (.ok (_, scr'), la') => runScopeE scr' la' rest
    | (.error e, _) => .error e

/-- The destructor invocations performed by `ScopedScratch::drop`, in order:
`iter_chain` walks `data_chain` head → `previous` → …, calling `dtor(mem)`
for each node whose `dtor` is `Some`. -/
def ScopedScratch.dropOrder (scr : ScopedScratch) : List Nat :=
  scr.dataChain.filterMap (·.dtor)

/-- The allocator after `ScopedScratch::drop`: the destructor walk does not
touch the allocator, then `self.allocator.rewind(self.alloc_start)`. -/
def ScopedScratch.dropScope (scr : ScopedScratch) (la : LinearAllocator) :
    LinearAllocator :=
  la.rewind scr.allocStart

/-- The labels of the drop-requiring allocations of a request list, in
request order. -/
def objLabels (reqs : List AllocReq) : List Nat :=
  reqs.filterMap fun
    | .obj _ _ label => some label
    | .pod _ _ => none

/-!
## Nested scopes over one allocator

Rust lifetimes force the canonical usage pattern: `new_scope` is called on the
innermost live scope, allocations go through some live scope, and scopes are
dropped innermost-first.  `Sys` is the whole chain (innermost scope first)
together with the shared allocator; `parent_locked` back-references are
realised by adjacency in the list (`drop` clears the next scope's `locked`,
which is exactly `*parent_locked.borrow_mut() = false`).
-/

/-- The allocator plus the chain of live scopes, innermost first. -/
structure Sys where
  la : LinearAllocator
  scopes : List ScopedScratch
  deriving Repr, DecidableEq

/-- The events of the canonical (lifetime-respecting) usage pattern. -/
inductive Event where
  /-- call `alloc` on the innermost scope -/
  | alloc (r : AllocReq)
  /-- call `new_scope` on the innermost scope -/
  | newScope
  /-- drop of the innermost scope -/
  | dropInner
  deriving Repr, DecidableEq

/-- A root system: one allocator wrapped in a fresh root scope
(`ScopedScratch::new`). -/
def Sys.init (la : LinearAllocator) : Sys :=
  { la := la, scopes := [ScopedScratch.new la] }

/-- One step of the canonical usage pattern.  On an empty chain the event is
a no-op (there is no scope to act on). -/
def Sys.step (s : Sys) : Event → Sys
  | .alloc r =>
    match s.scopes with
    | [] => s
    | scr :: rest =>
      match scr.alloc s.la r with
      | (.ok (_, scr'), la') => { la := la', scopes := scr' :: rest }
      | (.error _, la') => { la := la', scopes := scr :: rest }
  | .newScope =>
    match s.scopes with
    | [] => s
    | scr :: rest =>
      match scr.new_scope s.la with
      | (parent', child) => { la := s.la, scopes := child :: parent' :: rest }
  | .dropInner =>
    match s.scopes with
    | [] => s
    | scr :: rest =>
      let la' := scr.dropScope s.la
      match rest with
      | [] => { la := la', scopes := [] }
      | parent :: rest' =>
        { la := la', scopes := { parent with locked := false } :: rest' }

/-- Run a list of events from a state. -/
def Sys.run (s : Sys) (events : List Event) : Sys :=
  events.foldl Sys.step s

/-- The locking discipline: the innermost scope is unlocked, every enclosing
scope is locked. -/
def locksOk : List ScopedScratch → Prop
  | [] => True
  | top :: rest => top.locked = false ∧ ∀ scr ∈ rest, scr.locked = true

/-- Reachable-state invariant of `Sys`: the allocator cursor is in bounds,
the locking discipline holds, and every scope's `alloc_start` is a former
cursor value, hence within the block bounds. -/
def Sys.Inv (s : Sys) : Prop :=
  s.la.WF ∧ locksOk s.scopes ∧
  ∀ scr ∈ s.scopes,
    s.la.blockStart ≤ scr.allocStart ∧
    scr.allocStart ≤ s.la.blockStart + s.la.sizeBytes

/-- The state reached from a fresh root scope over `la` after a list of
events of the canonical usage pattern. -/
def Sys.reach (la : LinearAllocator) (events : List Event) : Sys :=
  (Sys.init la).run events

/-!
## Allocation sequences directly on the linear allocator (for C5)
-/

/-- Run a list of `(size, align)` requests through `alloc_internal`,
collecting the returned addresses; stops at the first failure. -/
def allocMany (la : LinearAllocator) :
    List (Nat × Nat) → Except AllocError (List Nat) × LinearAllocator
  | [] => (.ok [], la)
  | (s, a) :: rest =>
    match la.alloc_internal s a with
    | (.ok addr, la1) =>
      match allocMany la1 rest with
      | (.ok addrs, la2) => (.ok (addr :: addrs), la2)
      | (.error e, la2) => (.error e, la2)
    | (.error e, la1) => (.error e, la1)

/-- Two byte ranges, given as `(start, size)`, do not overlap. -/
def rangesDisjoint (p q : Nat × Nat) : Prop :=
  p.1 + p.2 ≤ q.1 ∨ q.1 + q.2 ≤ p.1

/-!
## Helper lemmas
-/

theorem alignOffset_dvd (p a : Nat) (ha : 0 < a) : a ∣ (p + alignOffset p a) := by
  unfold alignOffset
  rcases Nat.eq_zero_or_pos (p % a) with h | h
  · simp [h, Nat.dvd_of_mod_eq_zero h]
  · have hlt : p % a < a := Nat.mod_lt _ ha
    have h1 : (a - p % a) % a = a - p % a := Nat.mod_eq_of_lt (by omega)
    rw [h1]
    refine ⟨p / a + 1, ?_⟩
    have h2 := Nat.div_add_mod p a
    have h3 : a * (p / a + 1) = a * (p / a) + a := by ring
    omega

theorem alignOffset_lt (p a : Nat) (ha : 0 < a) : alignOffset p a < a := by
  unfold alignOffset
  exact Nat.mod_lt _ ha

/-- Equation for `alloc_internal` written out with the `let`s substituted. -/
theorem alloc_internal_eq (la : LinearAllocator) (s a : Nat) :
    la.alloc_internal s a =
      if ¬ s < isizeMax / 2 then (.error (.sizeAssertFailed s), la)
      else if la.nextAlloc - la.blockStart + alignOffset la.nextAlloc a + s >
          la.sizeBytes then
        (.error (.outOfMemory s a
          (la.sizeBytes - (la.nextAlloc - la.blockStart))), la)
      else
        (.ok (la.nextAlloc + alignOffset la.nextAlloc a),
         { la with
            nextAlloc := la.nextAlloc + alignOffset la.nextAlloc a + s }) :=
  rfl

/-- Everything a successful `alloc_internal` call guarantees. -/
theorem alloc_internal_ok_spec {la la' : LinearAllocator} {s a addr : Nat}
    (h : la.alloc_internal s a = (.ok addr, la')) :
    addr = la.nextAlloc + alignOffset la.nextAlloc a ∧
    la'.nextAlloc = addr + s ∧
    la'.blockStart = la.blockStart ∧
    la'.sizeBytes = la.sizeBytes ∧
    la'.layoutSize = la.layoutSize ∧
    la'.layoutAlign = la.layoutAlign ∧
    la.nextAlloc - la.blockStart + alignOffset la.nextAlloc a + s ≤
      la.sizeBytes ∧
    s < isizeMax / 2 := by
  rw [alloc_internal_eq] at h
  split at h
  · simp at h
  · split at h
    · simp at h
    · obtain ⟨h1, h2⟩ := Prod.mk.injEq .. ▸ h
      obtain rfl := (Except.ok.injEq .. ▸ h1)
      subst h2
      refine ⟨rfl, rfl, rfl, rfl, rfl, rfl, by omega, by omega⟩

/-- A failing `alloc_internal` call leaves the allocator untouched. -/
theorem alloc_internal_error_spec {la la' : LinearAllocator} {s a : Nat}
    {e : AllocError} (h : la.alloc_internal s a = (.error e, la')) :
    la' = la := by
  rw [alloc_internal_eq] at h
  split at h
  · exact ((Prod.mk.injEq .. ▸ h).2).symm
  · split at h
    · exact ((Prod.mk.injEq .. ▸ h).2).symm
    · simp at h

/-- Lemma: `alloc_internal` preserves the cursor invariant. -/
theorem alloc_internal_WF {la la' : LinearAllocator} {s a addr : Nat}
    (hwf : la.WF) (h : la.alloc_internal s a = (.ok addr, la')) : la'.WF := by
  obtain ⟨h1, h2, h3, h4, -, -, h7, -⟩ := alloc_internal_ok_spec h
  obtain ⟨hl, hr⟩ := hwf
  constructor
  · omega
  · omega

/-- Lemma: a successful allocation, fully evaluated. -/
theorem alloc_internal_ok_of (la : LinearAllocator) (s a : Nat)
    (hs : s < isizeMax / 2)
    (hfit : la.nextAlloc - la.blockStart + alignOffset la.nextAlloc a + s ≤
      la.sizeBytes) :
    la.alloc_internal s a =
      (.ok (la.nextAlloc + alignOffset la.nextAlloc a),
       { la with nextAlloc := la.nextAlloc + alignOffset la.nextAlloc a + s }) := by
  rw [alloc_internal_eq, if_neg (by omega), if_neg (by omega)]

/-- Lemma: allocating a zero-sized, align-1 object is the identity on the
allocator and returns the current cursor. -/
theorem alloc_internal_zst (la : LinearAllocator) (hwf : la.WF) :
    la.alloc_internal 0 1 = (.ok la.nextAlloc, la) := by
  obtain ⟨h1, h2⟩ := hwf
  have hoff : alignOffset la.nextAlloc 1 = 0 := by
    unfold alignOffset; omega
  rw [alloc_internal_ok_of la 0 1 (by norm_num [isizeMax]) (by omega), hoff]
  simp only [Nat.add_zero]

/-- C3: an `alloc_internal` request of size `S` and alignment `A` (with the
overflow guard `S < isize::MAX / 2` satisfied) fails exactly when
occupied bytes + alignment padding + `S` exceeds the capacity; every failure
is the `OutOfMemory` panic reporting the requested size, the alignment and
the remaining bytes, and it leaves the allocator (in particular the cursor)
unchanged.  The witness instantiates the spec's example: requesting 1025
bytes from a fresh 1024-byte allocator fails reporting 1024 remaining bytes
with the cursor still at the block start. -/
theorem spec_c3_oom_exact (la : LinearAllocator) (s a : Nat)
    (hs : s < isizeMax / 2) :
    ((∃ e, (la.alloc_internal s a).1 = .error e) ↔
      la.nextAlloc - la.blockStart + alignOffset la.nextAlloc a + s >
        la.sizeBytes) ∧
    (∀ e, (la.alloc_internal s a).1 = .error e →
      e = .outOfMemory s a (la.sizeBytes - (la.nextAlloc - la.blockStart)) ∧
      (la.alloc_internal s a).2 = la) := by
  rw [alloc_internal_eq, if_neg (by omega)]
  constructor
  · constructor
    · rintro ⟨e, he⟩
      by_contra hgt
      rw [if_neg hgt] at he
      simp at he
    · intro hgt
      rw [if_pos hgt]
      exact ⟨_, rfl⟩
  · intro e he
    by_cases hgt : la.sizeBytes <
        la.nextAlloc - la.blockStart + alignOffset la.nextAlloc a + s
    · rw [if_pos hgt] at he ⊢
      simp at he
      simp [he]
    · rw [if_neg hgt] at he
      simp at he

/-- Witness for C3 at the spec's concrete example. -/
theorem spec_c3_oom_exact_witness :
    (∃ e,
      ((⟨64, 1024, 64, 1024, 64⟩ : LinearAllocator).alloc_internal 1025 1).1 =
        .error e) ∧
    (∀ e,
      ((⟨64, 1024, 64, 1024, 64⟩ : LinearAllocator).alloc_internal 1025 1).1 =
          .error e →
      e = .outOfMemory 1025 1 1024 ∧
      ((⟨64, 1024, 64, 1024, 64⟩ : LinearAllocator).alloc_internal 1025 1).2 =
        ⟨64, 1024, 64, 1024, 64⟩) := by
  have h := spec_c3_oom_exact ⟨64, 1024, 64, 1024, 64⟩ 1025 1
    (by norm_num [isizeMax])
  refine ⟨h.1.mpr (by decide), fun e he => ?_⟩
  obtain ⟨h1, h2⟩ := h.2 e he
  exact ⟨by simpa using h1, h2⟩

/-- C8 (amended): the best-effort bounds assertion in `rewind` accepts
exactly the tokens of the half-open interval
`[block_start, block_start + capacity)`: for those the cursor is set to the
token (other fields untouched), for every token outside — including
`block_start + capacity` itself — the assertion fails.  (The claim's closed
upper end is rejected by the code; see the counterexample.) -/
theorem spec_c8_rewind_guard (la : LinearAllocator) (token : Nat) :
    ((∃ la', la.rewind_checked token = .ok la') ↔
      la.blockStart ≤ token ∧ token < la.blockStart + la.sizeBytes) ∧
    (∀ la', la.rewind_checked token = .ok la' →
      la'.nextAlloc = token ∧ la'.blockStart = la.blockStart ∧
      la'.sizeBytes = la.sizeBytes) ∧
    (¬ (la.blockStart ≤ token ∧ token < la.blockStart + la.sizeBytes) →
      la.rewind_checked token = .error .assertFailed) := by
  unfold LinearAllocator.rewind_checked LinearAllocator.rewind
  refine ⟨⟨?_, ?_⟩, ?_, ?_⟩
  · rintro ⟨la', hla'⟩
    by_contra hc
    rw [if_neg hc] at hla'
    simp at hla'
  · intro hc
    rw [if_pos hc]
    exact ⟨_, rfl⟩
  · intro la' hla'
    split at hla'
    · simp at hla'
      simp [← hla']
    · simp at hla'
  · intro hc
    rw [if_neg hc]

/-- Witness for C8's amended theorem. -/
theorem spec_c8_rewind_guard_witness :
    ((∃ la',
      (⟨64, 1024, 64, 1024, 1088⟩ : LinearAllocator).rewind_checked 65 =
        .ok la') ↔ (64 ≤ 65 ∧ 65 < 64 + 1024)) ∧
    (⟨64, 1024, 64, 1024, 1088⟩ : LinearAllocator).rewind_checked 1088 =
      .error .assertFailed := by
  have h1 := spec_c8_rewind_guard ⟨64, 1024, 64, 1024, 1088⟩ 65
  have h2 := spec_c8_rewind_guard ⟨64, 1024, 64, 1024, 1088⟩ 1088
  exact ⟨h1.1, h2.2.2 (by decide)⟩

/-- Counterexample to C8 as stated: the token `block_start + capacity` lies in
the claimed closed acceptance interval (it is `peek()` of an exactly-full
allocator), yet the assertion rejects it. -/
theorem spec_c8_counterexample :
    (64 ≤ 64 + 1024 ∧ 64 + 1024 ≤ 64 + 1024) ∧
    (⟨64, 1024, 64, 1024, 1088⟩ : LinearAllocator).rewind_checked (64 + 1024) =
      .error .assertFailed := by decide

/-- Counterexample to C9 as stated: `capacity = isize::MAX - 1` is neither
zero nor `≥ isize::MAX`, so the claim predicts a successful construction, but
`Layout::from_size_align(capacity, 64)` overflows (the size rounded up to the
64-byte alignment exceeds `isize::MAX`) and construction panics. -/
theorem spec_c9_counterexample :
    ¬ (2 ^ 63 - 2 = 0) ∧ (2 ^ 63 - 2 < isizeMax) ∧
    LinearAllocator.new 64 (2 ^ 63 - 2) = .error .layoutError := by
  refine ⟨by decide, by decide, ?_⟩
  rfl

/-- C9 (amended): construction fails when the capacity is zero, at least
`isize::MAX`, or within the last 63 bytes below `isize::MAX` (where rounding
the layout size up to the 64-byte alignment overflows); for every other
capacity it yields an allocator whose layout requests 64-byte (cache-line)
alignment and whose cursor starts at `block_start` with the full capacity
free. -/
theorem spec_c9_create (b s : Nat) :
    ((∃ la, LinearAllocator.new b s = .ok la) ↔
      ¬ (s = 0 ∨ isizeMax ≤ s ∨ isizeMax - 63 < s)) ∧
    (s = 0 → LinearAllocator.new b s = .error .sizeZero) ∧
    (s ≠ 0 → isizeMax ≤ s → LinearAllocator.new b s = .error .sizeTooLarge) ∧
    (∀ la, LinearAllocator.new b s = .ok la →
      la.blockStart = b ∧ la.layoutAlign = 64 ∧ la.layoutSize = s ∧
      la.sizeBytes = s ∧ la.nextAlloc = b ∧ la.peek = la.blockStart) := by
  have hm : isizeMax = 9223372036854775807 := by norm_num [isizeMax]
  have hv : LinearAllocator.new b s =
      if s = 0 then .error .sizeZero
      else if isizeMax ≤ s then .error .sizeTooLarge
      else if isizeMax - 63 < s then .error .layoutError
      else .ok ⟨b, s, 64, s, b⟩ := by
    unfold LinearAllocator.new layoutFromSizeAlign
    by_cases h0 : s = 0
    · simp [h0]
    · rw [if_neg h0, if_neg h0]
      by_cases h1 : isizeMax ≤ s
      · rw [if_pos (by omega), if_pos h1]
      · rw [if_neg (by omega), if_neg h1]
        by_cases h2 : isizeMax - 63 < s
        · rw [if_neg (by omega), if_pos h2]
        · rw [if_pos (by omega), if_neg h2]
  rw [hv]
  refine ⟨⟨?_, ?_⟩, ?_, ?_, ?_⟩
  · rintro ⟨la, hla⟩
    split at hla
    · simp at hla
    · split at hla
      · simp at hla
      · split at hla
        · simp at hla
        · rename_i hc0 hc1 hc2
          intro hc
          rcases hc with hc | hc | hc
          · exact hc0 hc
          · exact hc1 hc
          · exact hc2 hc
  · intro hc
    rw [if_neg (by omega), if_neg (by omega), if_neg (by omega)]
    exact ⟨_, rfl⟩
  · intro h0
    rw [if_pos h0]
  · intro h0 h1
    rw [if_neg h0, if_pos h1]
  · intro la hla
    split at hla
    · simp at hla
    · split at hla
      · simp at hla
      · split at hla
        · simp at hla
        · simp only [Except.ok.injEq] at hla
          subst hla
          exact ⟨rfl, rfl, rfl, rfl, rfl, rfl⟩

/-- Witness for C9's amended theorem at `capacity = 1024`. -/
theorem spec_c9_create_witness :
    (∃ la, LinearAllocator.new 64 1024 = .ok la) ∧
    (∀ la, LinearAllocator.new 64 1024 = .ok la →
      la.blockStart = 64 ∧ la.layoutAlign = 64 ∧ la.layoutSize = 1024 ∧
      la.sizeBytes = 1024 ∧ la.nextAlloc = 64 ∧ la.peek = la.blockStart) := by
  have h := spec_c9_create 64 1024
  exact ⟨h.1.mpr (by decide), h.2.2.2⟩

/-- Lemma: a zero-sized, align-1 `pod` allocation on an unlocked scope
succeeds and changes neither the scope nor the allocator. -/
theorem scratch_alloc_zst (scr : ScopedScratch) (la : LinearAllocator)
    (hwf : la.WF) (hlock : scr.locked = false) :
    scr.alloc la (.pod 0 1) = (.ok (la.nextAlloc, scr), la) := by
  unfold ScopedScratch.alloc
  rw [hlock]
  simp only [Bool.false_eq_true, if_false, alloc_internal_zst la hwf]

/-- C10: allocating a zero-sized, align-1 object always succeeds — even with
zero bytes of capacity remaining — and changes nothing: `alloc_internal`
returns the current cursor and leaves the whole allocator state unchanged,
and `ScopedScratch::alloc` of such a type (which needs no drop) on an
unlocked scope returns the same and also leaves the scope unchanged. -/
theorem spec_c10_zst_alloc (la : LinearAllocator) (scr : ScopedScratch)
    (hwf : la.WF) (hlock : scr.locked = false) :
    la.alloc_internal 0 1 = (.ok la.nextAlloc, la) ∧
    scr.alloc la (.pod 0 1) = (.ok (la.nextAlloc, scr), la) :=
  ⟨alloc_internal_zst la hwf, scratch_alloc_zst scr la hwf hlock⟩

/-- Witness for C10 on an exactly-full allocator (zero bytes remaining). -/
theorem spec_c10_zst_alloc_witness :
    ((⟨64, 1024, 64, 1024, 1088⟩ : LinearAllocator).alloc_internal 0 1 =
      (.ok 1088, ⟨64, 1024, 64, 1024, 1088⟩)) ∧
    (ScopedScratch.alloc ⟨64, [], false⟩ ⟨64, 1024, 64, 1024, 1088⟩
        (.pod 0 1) =
      (.ok (1088, ⟨64, [], false⟩), ⟨64, 1024, 64, 1024, 1088⟩)) := by
  have h := spec_c10_zst_alloc ⟨64, 1024, 64, 1024, 1088⟩ ⟨64, [], false⟩
    (by decide) rfl
  exact h

/-- C7: on a fresh allocator of capacity 1024 (whose block is 64-byte
aligned), allocating a 1-byte value returns the block start and advances the
cursor to offset 1; `peek()` then gives offset 1; allocating an 8-byte value
of 8-byte alignment consumes 7 bytes of padding and advances the cursor to
offset 16; rewinding to the earlier `peek()` value restores the cursor to
offset 1. -/
theorem spec_c7_example (b : Nat) (la0 : LinearAllocator) (hb : 64 ∣ b)
    (hnew : LinearAllocator.new b 1024 = .ok la0) :
    (la0.alloc_internal 1 1).1 = .ok b ∧
    ((la0.alloc_internal 1 1).2).nextAlloc = b + 1 ∧
    ((la0.alloc_internal 1 1).2).peek = b + 1 ∧
    alignOffset ((la0.alloc_internal 1 1).2).peek 8 = 7 ∧
    (((la0.alloc_internal 1 1).2).alloc_internal 8 8).1 = .ok (b + 8) ∧
    ((((la0.alloc_internal 1 1).2).alloc_internal 8 8).2).nextAlloc = b + 16 ∧
    (((((la0.alloc_internal 1 1).2).alloc_internal 8 8).2).rewind
        ((la0.alloc_internal 1 1).2).peek).nextAlloc = b + 1 := by
  obtain ⟨k, rfl⟩ := hb
  have hv : LinearAllocator.new (64 * k) 1024 =
      .ok ⟨64 * k, 1024, 64, 1024, 64 * k⟩ := by
    unfold LinearAllocator.new layoutFromSizeAlign
    norm_num [isizeMax]
  rw [hv] at hnew
  simp only [Except.ok.injEq] at hnew
  subst hnew
  have hoff1 : alignOffset (64 * k) 1 = 0 := by
    unfold alignOffset; omega
  have hoff8 : alignOffset (64 * k + 1) 8 = 7 := by
    unfold alignOffset; omega
  have h1 := alloc_internal_ok_of ⟨64 * k, 1024, 64, 1024, 64 * k⟩ 1 1
    (by norm_num [isizeMax])
    (by show 64 * k - 64 * k + alignOffset (64 * k) 1 + 1 ≤ 1024
        rw [hoff1]; omega)
  rw [hoff1] at h1
  simp only [Nat.add_zero] at h1
  have h2 := alloc_internal_ok_of ⟨64 * k, 1024, 64, 1024, 64 * k + 1⟩ 8 8
    (by norm_num [isizeMax])
    (by show 64 * k + 1 - 64 * k + alignOffset (64 * k + 1) 8 + 8 ≤ 1024
        rw [hoff8]; omega)
  rw [hoff8] at h2
  rw [show (64 * k + 1 + 7 : Nat) = 64 * k + 8 from by omega,
      show (64 * k + 8 + 8 : Nat) = 64 * k + 16 from by omega] at h2
  rw [h1]
  refine ⟨rfl, rfl, rfl, ?_, ?_, ?_, ?_⟩
  · exact hoff8
  · rw [show ((Except.ok (64 * k),
        (⟨64 * k, 1024, 64, 1024, 64 * k + 1⟩ : LinearAllocator)).2) =
        (⟨64 * k, 1024, 64, 1024, 64 * k + 1⟩ : LinearAllocator) from rfl, h2]
  · rw [show ((Except.ok (64 * k),
        (⟨64 * k, 1024, 64, 1024, 64 * k + 1⟩ : LinearAllocator)).2) =
        (⟨64 * k, 1024, 64, 1024, 64 * k + 1⟩ : LinearAllocator) from rfl, h2]
  · rw [show ((Except.ok (64 * k),
        (⟨64 * k, 1024, 64, 1024, 64 * k + 1⟩ : LinearAllocator)).2) =
        (⟨64 * k, 1024, 64, 1024, 64 * k + 1⟩ : LinearAllocator) from rfl, h2]
    rfl

/-- Witness for C7 at block address 64. -/
theorem spec_c7_example_witness :
    let la0 : LinearAllocator := ⟨64, 1024, 64, 1024, 64⟩
    (la0.alloc_internal 1 1).1 = .ok 64 ∧
    ((la0.alloc_internal 1 1).2).nextAlloc = 64 + 1 ∧
    ((la0.alloc_internal 1 1).2).peek = 64 + 1 ∧
    alignOffset ((la0.alloc_internal 1 1).2).peek 8 = 7 ∧
    (((la0.alloc_internal 1 1).2).alloc_internal 8 8).1 = .ok (64 + 8) ∧
    ((((la0.alloc_internal 1 1).2).alloc_internal 8 8).2).nextAlloc =
      64 + 16 ∧
    (((((la0.alloc_internal 1 1).2).alloc_internal 8 8).2).rewind
        ((la0.alloc_internal 1 1).2).peek).nextAlloc = 64 + 1 :=
  spec_c7_example 64 ⟨64, 1024, 64, 1024, 64⟩ (by decide) (by decide)

/-- Lemma: a successful `allocMany` run preserves the block identity, never
moves the cursor backwards, returns one address per request, and returns no
address below the starting cursor. -/
theorem allocMany_ok_spec (reqs : List (Nat × Nat)) :
    ∀ (la la' : LinearAllocator) (as : List Nat),
    allocMany la reqs = (.ok as, la') →
    la'.blockStart = la.blockStart ∧ la'.sizeBytes = la.sizeBytes ∧
    la.nextAlloc ≤ la'.nextAlloc ∧ as.length = reqs.length ∧
    ∀ x ∈ as, la.nextAlloc ≤ x := by
  induction reqs with
  | nil =>
    intro la la' as h
    unfold allocMany at h
    simp only [Prod.mk.injEq, Except.ok.injEq] at h
    obtain ⟨rfl, rfl⟩ := h
    exact ⟨rfl, rfl, le_refl _, rfl, by simp⟩
  | cons r rest ih =>
    obtain ⟨s, a⟩ := r
    intro la la' as h
    unfold allocMany at h
    split at h
    · rename_i addr la1 heq
      split at h
      · rename_i addrs la2 heq2
        simp only [Prod.mk.injEq, Except.ok.injEq] at h
        obtain ⟨rfl, rfl⟩ := h
        obtain ⟨hb, hsz, hle, hlen, hlb⟩ := ih la1 _ addrs heq2
        obtain ⟨ha1, ha2, ha3, ha4, -⟩ := alloc_internal_ok_spec heq
        refine ⟨by omega, by omega, by omega, by simp [hlen], ?_⟩
        intro x hx
        rcases List.mem_cons.mp hx with rfl | hx
        · omega
        · have := hlb x hx
          omega
      · simp at h
    · simp at h

/-- Lemma: on a successful `allocMany` run, each returned byte range
`[addr, addr + size)` ends no later than every later address starts. -/
theorem allocMany_pairwise (reqs : List (Nat × Nat)) :
    ∀ (la la' : LinearAllocator) (as : List Nat),
    allocMany la reqs = (.ok as, la') →
    List.Pairwise (fun x y : Nat × Nat => x.1 + x.2 ≤ y.1)
      (as.zip (reqs.map Prod.fst)) := by
  induction reqs with
  | nil =>
    intro la la' as h
    unfold allocMany at h
    simp only [Prod.mk.injEq, Except.ok.injEq] at h
    obtain ⟨rfl, rfl⟩ := h
    simp
  | cons r rest ih =>
    obtain ⟨s, a⟩ := r
    intro la la' as h
    unfold allocMany at h
    split at h
    · rename_i addr la1 heq
      split at h
      · rename_i addrs la2 heq2
        simp only [Prod.mk.injEq, Except.ok.injEq] at h
        obtain ⟨rfl, rfl⟩ := h
        simp only [List.map_cons, List.zip_cons_cons, List.pairwise_cons]
        constructor
        · intro y hy
          obtain ⟨y1, y2⟩ := y
          have hy1 : y1 ∈ addrs := (List.of_mem_zip hy).1
          obtain ⟨-, -, -, -, hlb⟩ := allocMany_ok_spec rest la1 _ addrs heq2
          obtain ⟨ha1, ha2, -⟩ := alloc_internal_ok_spec heq
          have := hlb y1 hy1
          simp only
          omega
        · exact ih la1 _ addrs heq2
      · simp at h
    · simp at h

/-- Lemma: on a successful `allocMany` run with positive alignments, every
returned address is a multiple of its request's alignment. -/
theorem allocMany_aligned (reqs : List (Nat × Nat)) :
    ∀ (la la' : LinearAllocator) (as : List Nat),
    (∀ r ∈ reqs, 0 < r.2) →
    allocMany la reqs = (.ok as, la') →
    ∀ p ∈ as.zip (reqs.map Prod.snd), p.2 ∣ p.1 := by
  induction reqs with
  | nil =>
    intro la la' as halign h
    unfold allocMany at h
    simp only [Prod.mk.injEq, Except.ok.injEq] at h
    obtain ⟨rfl, rfl⟩ := h
    simp
  | cons r rest ih =>
    obtain ⟨s, a⟩ := r
    intro la la' as halign h
    unfold allocMany at h
    split at h
    · rename_i addr la1 heq
      split at h
      · rename_i addrs la2 heq2
        simp only [Prod.mk.injEq, Except.ok.injEq] at h
        obtain ⟨rfl, rfl⟩ := h
        intro p hp
        simp only [List.map_cons, List.zip_cons_cons, List.mem_cons] at hp
        rcases hp with rfl | hp
        · obtain ⟨ha1, -⟩ := alloc_internal_ok_spec heq
          have ha : 0 < a := halign (s, a) (by simp)
          simpa [ha1] using alignOffset_dvd la.nextAlloc a ha
        · exact ih la1 _ addrs (fun q hq => halign q (by simp [hq])) heq2 p hp
      · simp at h
    · simp at h

/-- C5 (amended): for every sequence of successful allocations the returned
byte ranges are mutually non-overlapping, every address is a multiple of its
request's alignment, and the addresses are non-decreasing; they are strictly
increasing whenever every request has nonzero size.  (Zero-sized allocations
return the current cursor without advancing it, so two of them can return the
same address — see the counterexample to strictness as originally stated.) -/
theorem spec_c5_alloc_sequence (la la' : LinearAllocator)
    (reqs : List (Nat × Nat)) (as : List Nat)
    (halign : ∀ r ∈ reqs, 0 < r.2)
    (h : allocMany la reqs = (.ok as, la')) :
    List.Pairwise rangesDisjoint (as.zip (reqs.map Prod.fst)) ∧
    (∀ p ∈ as.zip (reqs.map Prod.snd), p.2 ∣ p.1) ∧
    List.Pairwise (· ≤ ·) as ∧
    ((∀ r ∈ reqs, 0 < r.1) → List.Pairwise (· < ·) as) := by
  have hpw := allocMany_pairwise reqs la la' as h
  obtain ⟨-, -, -, hlen, -⟩ := allocMany_ok_spec reqs la la' as h
  have hmap : (as.zip (reqs.map Prod.fst)).map Prod.fst = as := by
    apply List.map_fst_zip
    simp [hlen]
  refine ⟨hpw.imp (fun hxy => Or.inl hxy),
    allocMany_aligned reqs la la' as halign h, ?_, ?_⟩
  · rw [← hmap, List.pairwise_map]
    exact hpw.imp (fun hxy => by omega)
  · intro hpos
    rw [← hmap, List.pairwise_map]
    refine List.Pairwise.imp_of_mem ?_ hpw
    intro x y hx hy hR
    obtain ⟨x1, x2⟩ := x
    have hx2 : x2 ∈ reqs.map Prod.fst := (List.of_mem_zip hx).2
    obtain ⟨r, hr, hrx⟩ := List.mem_map.mp hx2
    have := hpos r hr
    simp only at hR ⊢
    omega

/-- Witness for C5's amended theorem: three positive-size allocations of
mixed alignments. -/
theorem spec_c5_alloc_sequence_witness :
    allocMany ⟨64, 1024, 64, 1024, 64⟩ [(1, 1), (8, 8), (4, 4)] =
      (.ok [64, 72, 80], ⟨64, 1024, 64, 1024, 84⟩) ∧
    List.Pairwise rangesDisjoint
      ([64, 72, 80].zip ([(1, 1), (8, 8), (4, 4)].map Prod.fst)) ∧
    (∀ p ∈ [64, 72, 80].zip
        (([(1, 1), (8, 8), (4, 4)] : List (Nat × Nat)).map Prod.snd),
      p.2 ∣ p.1) ∧
    List.Pairwise (fun x y : Nat => x ≤ y) [64, 72, 80] ∧
    List.Pairwise (fun x y : Nat => x < y) [64, 72, 80] := by
  have hrun : allocMany ⟨64, 1024, 64, 1024, 64⟩ [(1, 1), (8, 8), (4, 4)] =
      (.ok [64, 72, 80], ⟨64, 1024, 64, 1024, 84⟩) := by decide
  have h := spec_c5_alloc_sequence ⟨64, 1024, 64, 1024, 64⟩
    ⟨64, 1024, 64, 1024, 84⟩ [(1, 1), (8, 8), (4, 4)] [64, 72, 80]
    (by decide) hrun
  exact ⟨hrun, h.1, h.2.1, h.2.2.1, h.2.2.2 (by decide)⟩

/-- Counterexample to C5 as stated: two successful zero-sized allocations
(a zero-sized type has size 0 and alignment 1) both return the block start,
so the returned addresses are not strictly increasing. -/
theorem spec_c5_counterexample :
    allocMany ⟨64, 1024, 64, 1024, 64⟩ [(0, 1), (0, 1)] =
      (.ok [64, 64], ⟨64, 1024, 64, 1024, 64⟩) ∧
    ¬ List.Pairwise (fun x y : Nat => x < y) [64, 64] := by
  constructor
  · decide
  · decide

/-- Lemma: a successful `pod` allocation through a scope is exactly a
delegated `alloc_internal` and leaves the scope untouched. -/
theorem scratch_alloc_pod_ok {scr : ScopedScratch} {la : LinearAllocator}
    {s a addr : Nat} {scr' : ScopedScratch} {la' : LinearAllocator}
    (h : scr.alloc la (.pod s a) = (.ok (addr, scr'), la')) :
    scr' = scr ∧ scr.locked = false ∧
    la.alloc_internal s a = (.ok addr, la') := by
  unfold ScopedScratch.alloc at h
  split at h
  · rename_i s2 a2 heq
    injection heq with h1 h2
    subst h1
    subst h2
    split at h
    · simp at h
    · rename_i hlock
      split at h
      · rename_i addr2 la2 heq2
        simp only [Prod.mk.injEq, Except.ok.injEq] at h
        obtain ⟨⟨rfl, rfl⟩, rfl⟩ := h
        exact ⟨rfl, by simpa using hlock, heq2⟩
      · simp at h
  · rename_i heq
    simp at heq

/-- Lemma: a successful `obj` allocation through a scope allocates the chain
node and then the object, pushes the node (with the object's address and its
destructor) onto the chain, and changes nothing else of the scope. -/
theorem scratch_alloc_obj_ok {scr : ScopedScratch} {la : LinearAllocator}
    {s a lbl addr : Nat} {scr' : ScopedScratch} {la' : LinearAllocator}
    (h : scr.alloc la (.obj s a lbl) = (.ok (addr, scr'), la')) :
    scr' = { scr with
      dataChain := { mem := addr, dtor := some lbl } :: scr.dataChain } ∧
    scr.locked = false ∧
    ∃ nodeAddr la1,
      la.alloc_internal scopeDataSizeBytes scopeDataAlignBytes =
        (.ok nodeAddr, la1) ∧
      la1.alloc_internal s a = (.ok addr, la') := by
  unfold ScopedScratch.alloc at h
  split at h
  · rename_i heq
    simp at heq
  · rename_i s2 a2 lbl2 heq
    injection heq with h1 h2 h3
    subst h1
    subst h2
    subst h3
    split at h
    · simp at h
    · rename_i hlock
      split at h
      · simp at h
      · rename_i nodeAddr la1 heq1
        split at h
        · simp at h
        · rename_i addr2 la2 heq2
          simp only [Prod.mk.injEq, Except.ok.injEq] at h
          obtain ⟨⟨rfl, rfl⟩, rfl⟩ := h
          exact ⟨rfl, by simpa using hlock, nodeAddr, la1, heq1, heq2⟩

/-- Lemma: any `alloc` call on a scope, successful or not, preserves the
allocator's block identity and the cursor invariant. -/
theorem scratch_alloc_snd_spec {scr : ScopedScratch} {la : LinearAllocator}
    {r : AllocReq} {res : Except ScratchError (Nat × ScopedScratch)}
    {la' : LinearAllocator} (h : scr.alloc la r = (res, la')) :
    la'.blockStart = la.blockStart ∧ la'.sizeBytes = la.sizeBytes ∧
    (la.WF → la'.WF) := by
  cases r with
  | pod s a =>
    unfold ScopedScratch.alloc at h
    split at h
    · rename_i s2 a2 heq
      injection heq with h1 h2
      subst h1
      subst h2
      split at h
      · simp only [Prod.mk.injEq] at h
        obtain ⟨-, rfl⟩ := h
        exact ⟨rfl, rfl, id⟩
      · split at h
        · rename_i addr1 la1 heq2
          simp only [Prod.mk.injEq] at h
          obtain ⟨-, rfl⟩ := h
          exact ⟨(alloc_internal_ok_spec heq2).2.2.1,
            (alloc_internal_ok_spec heq2).2.2.2.1,
            fun hwf => alloc_internal_WF hwf heq2⟩
        · rename_i e1 la1 heq2
          simp only [Prod.mk.injEq] at h
          obtain ⟨-, rfl⟩ := h
          have : la1 = la := alloc_internal_error_spec heq2
          subst this
          exact ⟨rfl, rfl, id⟩
    · rename_i heq
      simp at heq
  | obj s a lbl =>
    unfold ScopedScratch.alloc at h
    split at h
    · rename_i heq
      simp at heq
    · rename_i s2 a2 lbl2 heq
      injection heq with h1 h2 h3
      subst h1
      subst h2
      subst h3
      split at h
      · simp only [Prod.mk.injEq] at h
        obtain ⟨-, rfl⟩ := h
        exact ⟨rfl, rfl, id⟩
      · split at h
        · rename_i e1 la1 heq1
          simp only [Prod.mk.injEq] at h
          obtain ⟨-, rfl⟩ := h
          have : la1 = la := alloc_internal_error_spec heq1
          subst this
          exact ⟨rfl, rfl, id⟩
        · rename_i nodeAddr la1 heq1
          split at h
          · rename_i e2 la2 heq2
            simp only [Prod.mk.injEq] at h
            obtain ⟨-, rfl⟩ := h
            have h21 : la2 = la1 := alloc_internal_error_spec heq2
            subst h21
            exact ⟨(alloc_internal_ok_spec heq1).2.2.1,
              (alloc_internal_ok_spec heq1).2.2.2.1,
              fun hwf => alloc_internal_WF hwf heq1⟩
          · rename_i addr1 la2 heq2
            simp only [Prod.mk.injEq] at h
            obtain ⟨-, rfl⟩ := h
            obtain ⟨-, -, hb1, hs1, -⟩ := alloc_internal_ok_spec heq1
            obtain ⟨-, -, hb2, hs2, -⟩ := alloc_internal_ok_spec heq2
            exact ⟨by rw [hb2, hb1], by rw [hs2, hs1],
              fun hwf => alloc_internal_WF (alloc_internal_WF hwf heq1) heq2⟩

/-- Lemma: a successful `alloc` preserves the scope's `alloc_start` and
`locked` flag. -/
theorem scratch_alloc_ok_scope {scr : ScopedScratch} {la : LinearAllocator}
    {r : AllocReq} {addr : Nat} {scr' : ScopedScratch}
    {la' : LinearAllocator}
    (h : scr.alloc la r = (.ok (addr, scr'), la')) :
    scr'.allocStart = scr.allocStart ∧ scr'.locked = scr.locked := by
  cases r with
  | pod s a =>
    obtain ⟨rfl, -, -⟩ := scratch_alloc_pod_ok h
    exact ⟨rfl, rfl⟩
  | obj s a lbl =>
    obtain ⟨rfl, -, -⟩ := scratch_alloc_obj_ok h
    exact ⟨rfl, rfl⟩

/-- Lemma: a successful run through a scope prepends, in reverse request
order, exactly the labels of the drop-requiring requests to the destructor
chain, and leaves `alloc_start` and `locked` unchanged. -/
theorem runScopeE_chain (reqs : List AllocReq) :
    ∀ (scr : ScopedScratch) (la : LinearAllocator)
      (scr' : ScopedScratch) (la' : LinearAllocator),
    runScopeE scr la reqs = .ok (scr', la') →
    scr'.dataChain.filterMap (·.dtor) =
      (objLabels reqs).reverse ++ scr.dataChain.filterMap (·.dtor) ∧
    scr'.allocStart = scr.allocStart ∧ scr'.locked = scr.locked := by
  induction reqs with
  | nil =>
    intro scr la scr' la' h
    unfold runScopeE at h
    simp only [Except.ok.injEq, Prod.mk.injEq] at h
    obtain ⟨rfl, rfl⟩ := h
    simp [objLabels]
  | cons r rest ih =>
    intro scr la scr' la' h
    unfold runScopeE at h
    split at h
    · rename_i addr scr1 la1 heq
      obtain ⟨hchain, hstart, hlock⟩ := ih scr1 la1 scr' la' h
      cases r with
      | pod s a =>
        obtain ⟨rfl, -, -⟩ := scratch_alloc_pod_ok heq
        refine ⟨?_, hstart, hlock⟩
        rw [hchain]
        simp [objLabels]
      | obj s a lbl =>
        obtain ⟨rfl, -, -⟩ := scratch_alloc_obj_ok heq
        refine ⟨?_, hstart, hlock⟩
        rw [hchain]
        simp [objLabels, List.filterMap_cons]
    · simp at h

/-- C1: dropping a scope whose allocations all succeeded invokes exactly the
destructors of the drop-requiring objects — each exactly once — in reverse
allocation order (the chain walk calls `dtor(mem)` from the most recently
allocated node backwards), and invokes no destructor for the
trivially-copyable (`pod`) allocations. -/
theorem spec_c1_drop_order (la : LinearAllocator) (reqs : List AllocReq)
    (scr' : ScopedScratch) (la' : LinearAllocator)
    (h : runScopeE (ScopedScratch.new la) la reqs = .ok (scr', la')) :
    scr'.dropOrder = (objLabels reqs).reverse := by
  obtain ⟨hchain, -, -⟩ := runScopeE_chain reqs (ScopedScratch.new la) la
    scr' la' h
  unfold ScopedScratch.dropOrder
  rw [hchain]
  simp [ScopedScratch.new]

/-- Witness for C1: objects labelled 1, 2, 3 allocated in that order,
interleaved with pod allocations; the drop order is 3, 2, 1. -/
theorem spec_c1_drop_order_witness :
    runScopeE (ScopedScratch.new ⟨64, 1024, 64, 1024, 64⟩)
        ⟨64, 1024, 64, 1024, 64⟩
        [.obj 4 4 1, .pod 1 1, .obj 8 8 2, .pod 2 2, .obj 4 4 3] =
      .ok (⟨64, [⟨184, some 3⟩, ⟨136, some 2⟩, ⟨96, some 1⟩], false⟩,
        ⟨64, 1024, 64, 1024, 188⟩) ∧
    (⟨64, [⟨184, some 3⟩, ⟨136, some 2⟩, ⟨96, some 1⟩],
        false⟩ : ScopedScratch).dropOrder = [3, 2, 1] := by
  constructor
  · decide
  · exact spec_c1_drop_order ⟨64, 1024, 64, 1024, 64⟩
      [.obj 4 4 1, .pod 1 1, .obj 8 8 2, .pod 2 2, .obj 4 4 3]
      ⟨64, [⟨184, some 3⟩, ⟨136, some 2⟩, ⟨96, some 1⟩], false⟩
      ⟨64, 1024, 64, 1024, 188⟩ (by decide)

/-- Lemma: running requests through a scope never changes the scope's
captured `alloc_start` nor the allocator's block identity, also when a
request fails partway. -/
theorem runScope_spec (reqs : List AllocReq) :
    ∀ (scr : ScopedScratch) (la : LinearAllocator),
    ((runScope scr la reqs).1).allocStart = scr.allocStart ∧
    ((runScope scr la reqs).2).blockStart = la.blockStart ∧
    ((runScope scr la reqs).2).sizeBytes = la.sizeBytes := by
  induction reqs with
  | nil => intro scr la; exact ⟨rfl, rfl, rfl⟩
  | cons r rest ih =>
    intro scr la
    unfold runScope
    rcases hres : scr.alloc la r with ⟨res, la1⟩
    obtain ⟨hb, hs, -⟩ := scratch_alloc_snd_spec hres
    cases res with
    | ok p =>
      obtain ⟨addr, scr1⟩ := p
      obtain ⟨h1, h2, h3⟩ := ih scr1 la1
      obtain ⟨hstart, -⟩ := scratch_alloc_ok_scope hres
      exact ⟨h1.trans hstart, h2.trans hb, h3.trans hs⟩
    | error e =>
      exact ⟨rfl, hb, hs⟩

/-- C2: dropping a scope rewinds the allocator's cursor to exactly the
`peek()` value captured when the scope was created, whatever allocations
happened through the scope meanwhile (including a run the last request of
which panicked), and leaves the block identity untouched; and a child scope
(`new_scope`) starts from exactly the same state as a root scope created at
that point, so the same holds for child scopes. -/
theorem spec_c2_scope_reclaim (la : LinearAllocator) (reqs : List AllocReq) :
    ((runScope (ScopedScratch.new la) la reqs).1.dropScope
        (runScope (ScopedScratch.new la) la reqs).2).nextAlloc = la.peek ∧
    ((runScope (ScopedScratch.new la) la reqs).1.dropScope
        (runScope (ScopedScratch.new la) la reqs).2).blockStart =
      la.blockStart ∧
    ((runScope (ScopedScratch.new la) la reqs).1.dropScope
        (runScope (ScopedScratch.new la) la reqs).2).sizeBytes =
      la.sizeBytes ∧
    ∀ parent : ScopedScratch,
      (parent.new_scope la).2 = ScopedScratch.new la := by
  obtain ⟨h1, h2, h3⟩ := runScope_spec reqs (ScopedScratch.new la) la
  exact ⟨h1, h2, h3, fun parent => rfl⟩

/-- C6 evidence: the code has no check in `new_scope`.  Called on a scope
whose `locked` flag is already `true` (one that already has a live child), it
does not fail: it just writes `true` to the flag again and hands out a second
child scope sharing the allocator. -/
theorem spec_c6_no_check :
    (ScopedScratch.new_scope ⟨64, [], true⟩ ⟨64, 1024, 64, 1024, 128⟩ =
      (⟨64, [], true⟩, ⟨128, [], false⟩)) ∧
    ∀ (scr : ScopedScratch) (la : LinearAllocator),
      scr.new_scope la =
        ({ scr with locked := true }, ScopedScratch.new la) := by
  exact ⟨rfl, fun scr la => rfl⟩

/-- Lemma: `alloc` on a locked scope fails with the `ScopeLocked` assertion
(before touching the allocator), whatever the request. -/
theorem scratch_alloc_locked (scr : ScopedScratch) (la : LinearAllocator)
    (r : AllocReq) (h : scr.locked = true) :
    scr.alloc la r = (.error .scopeLocked, la) := by
  cases r with
  | pod s a =>
    unfold ScopedScratch.alloc
    rw [h]
    simp
  | obj s a lbl =>
    unfold ScopedScratch.alloc
    rw [h]
    simp

/-- Lemma: under the locking discipline, every scope except the innermost is
locked. -/
theorem locksOk_get (scopes : List ScopedScratch) (hlocks : locksOk scopes)
    (i : Nat) (h : i < scopes.length) (hi : 0 < i) :
    (scopes.get ⟨i, h⟩).locked = true := by
  cases scopes with
  | nil => simp at h
  | cons top rest =>
    obtain ⟨-, hlr⟩ := hlocks
    cases i with
    | zero => omega
    | succ j =>
      have hj : j < rest.length := by simpa using h
      have : (top :: rest).get ⟨j + 1, h⟩ = rest.get ⟨j, hj⟩ := rfl
      rw [this]
      exact hlr _ (rest.get_mem _ _)

/-- Equation: one `alloc` step on a nonempty chain. -/
theorem Sys.step_alloc_cons (la : LinearAllocator) (scr : ScopedScratch)
    (rest : List ScopedScratch) (r : AllocReq) :
    Sys.step ⟨la, scr :: rest⟩ (.alloc r) =
      (match scr.alloc la r with
       | (.ok (_, scr'), la') => ⟨la', scr' :: rest⟩
       | (.error _, la') => ⟨la', scr :: rest⟩) := rfl

/-- Equation: one `new_scope` step on a nonempty chain. -/
theorem Sys.step_newScope_cons (la : LinearAllocator) (scr : ScopedScratch)
    (rest : List ScopedScratch) :
    Sys.step ⟨la, scr :: rest⟩ .newScope =
      ⟨la, ScopedScratch.new la :: { scr with locked := true } :: rest⟩ := rfl

/-- Equation: dropping the only scope. -/
theorem Sys.step_drop_one (la : LinearAllocator) (scr : ScopedScratch) :
    Sys.step ⟨la, [scr]⟩ .dropInner = ⟨scr.dropScope la, []⟩ := rfl

/-- Equation: dropping the innermost of at least two scopes unlocks its
parent. -/
theorem Sys.step_drop_cons (la : LinearAllocator) (scr parent : ScopedScratch)
    (rest2 : List ScopedScratch) :
    Sys.step ⟨la, scr :: parent :: rest2⟩ .dropInner =
      ⟨scr.dropScope la, { parent with locked := false } :: rest2⟩ := rfl

/-- Lemma: `Sys.step` preserves the reachable-state invariant. -/
theorem Sys.step_inv : ∀ (s : Sys) (e : Event), s.Inv → (s.step e).Inv := by
  rintro ⟨la, scopes⟩ e ⟨hwf, hlocks, hbounds⟩
  cases e with
  | alloc r =>
    cases scopes with
    | nil => exact ⟨hwf, hlocks, hbounds⟩
    | cons scr rest =>
      rw [Sys.step_alloc_cons]
      rcases hres : scr.alloc la r with ⟨res, la1⟩
      obtain ⟨hb, hsz, hwfp⟩ := scratch_alloc_snd_spec hres
      cases res with
      | ok p =>
        obtain ⟨addr, scr1⟩ := p
        obtain ⟨hstart, hlock⟩ := scratch_alloc_ok_scope hres
        refine ⟨hwfp hwf, ?_, ?_⟩
        · obtain ⟨hl0, hlr⟩ := hlocks
          exact ⟨hlock.trans hl0, hlr⟩
        · intro scr2 h2
          rcases List.mem_cons.mp h2 with rfl | h2
          · have hd := hbounds scr (by simp)
            rw [hb, hsz, hstart]
            exact hd
          · have hd := hbounds scr2 (by simp [h2])
            rw [hb, hsz]
            exact hd
      | error e1 =>
        refine ⟨hwfp hwf, hlocks, ?_⟩
        intro scr2 h2
        have hd := hbounds scr2 h2
        rw [hb, hsz]
        exact hd
  | newScope =>
    cases scopes with
    | nil => exact ⟨hwf, hlocks, hbounds⟩
    | cons scr rest =>
      rw [Sys.step_newScope_cons]
      refine ⟨hwf, ⟨rfl, ?_⟩, ?_⟩
      · obtain ⟨hl0, hlr⟩ := hlocks
        intro scr2 h2
        rcases List.mem_cons.mp h2 with rfl | h2
        · rfl
        · exact hlr scr2 h2
      · intro scr2 h2
        rcases List.mem_cons.mp h2 with rfl | h2
        · exact ⟨hwf.1, hwf.2⟩
        · rcases List.mem_cons.mp h2 with rfl | h2
          · exact hbounds scr (by simp)
          · exact hbounds scr2 (by simp [h2])
  | dropInner =>
    cases scopes with
    | nil => exact ⟨hwf, hlocks, hbounds⟩
    | cons scr rest =>
      cases rest with
      | nil =>
        rw [Sys.step_drop_one]
        refine ⟨?_, trivial, ?_⟩
        · have hd := hbounds scr (by simp)
          exact ⟨hd.1, hd.2⟩
        · intro scr2 h2
          simp at h2
      | cons parent rest2 =>
        rw [Sys.step_drop_cons]
        refine ⟨?_, ⟨rfl, ?_⟩, ?_⟩
        · have hd := hbounds scr (by simp)
          exact ⟨hd.1, hd.2⟩
        · obtain ⟨hl0, hlr⟩ := hlocks
          intro scr2 h2
          exact hlr scr2 (by simp [h2])
        · intro scr2 h2
          rcases List.mem_cons.mp h2 with rfl | h2
          · exact hbounds parent (by simp)
          · exact hbounds scr2 (by simp [h2])

/-- Lemma: `Sys.run` preserves the reachable-state invariant. -/
theorem Sys.run_inv (events : List Event) :
    ∀ s : Sys, s.Inv → (s.run events).Inv := by
  induction events with
  | nil => intro s h; exact h
  | cons e rest ih =>
    intro s h
    exact ih (s.step e) (Sys.step_inv s e h)

/-- Lemma: the invariant holds at a fresh root system. -/
theorem Sys.init_inv (la : LinearAllocator) (hwf : la.WF) :
    (Sys.init la).Inv := by
  refine ⟨hwf, ⟨rfl, ?_⟩, ?_⟩
  · intro scr h
    simp at h
  · intro scr h
    simp only [Sys.init, List.mem_singleton] at h
    subst h
    exact ⟨hwf.1, hwf.2⟩

/-- Equation: dropping the innermost scope of a system whose chain has at
least two scopes, in terms of the chain's decomposition. -/
theorem Sys.step_drop_eq (s : Sys) (child parent : ScopedScratch)
    (rest2 : List ScopedScratch) (h : s.scopes = child :: parent :: rest2) :
    s.step .dropInner =
      ⟨child.dropScope s.la, { parent with locked := false } :: rest2⟩ := by
  rcases s with ⟨sla, sscopes⟩
  simp only at h
  subst h
  exact Sys.step_drop_cons sla child parent rest2

/-- C4: in any chain of nested scopes reached by the canonical usage pattern
(allocations, child-scope creation, innermost drops) over one allocator, only
the innermost live scope can allocate: `alloc` on any scope that has a live
child (any scope other than the innermost) fails with the `ScopeLocked`
assertion and does not touch the allocator; and once the innermost scope is
dropped, its parent is unlocked again and a fitting allocation on it (here a
zero-sized one) succeeds. -/
theorem spec_c4_innermost_only (la : LinearAllocator) (events : List Event)
    (r : AllocReq) (hwf : la.WF) :
    (∀ i (h : i < (Sys.reach la events).scopes.length), 0 < i →
      ((Sys.reach la events).scopes.get ⟨i, h⟩).alloc
          (Sys.reach la events).la r =
        (.error .scopeLocked, (Sys.reach la events).la)) ∧
    (∀ child parent rest,
      (Sys.reach la events).scopes = child :: parent :: rest →
      ((Sys.reach la events).step .dropInner).scopes.head? =
        some { parent with locked := false } ∧
      ScopedScratch.alloc { parent with locked := false }
          ((Sys.reach la events).step .dropInner).la (.pod 0 1) =
        (.ok (((Sys.reach la events).step .dropInner).la.nextAlloc,
            { parent with locked := false }),
         ((Sys.reach la events).step .dropInner).la)) := by
  have hinv : (Sys.reach la events).Inv :=
    Sys.run_inv events (Sys.init la) (Sys.init_inv la hwf)
  obtain ⟨hwfs, hlocks, hbounds⟩ := hinv
  constructor
  · intro i h hi
    exact scratch_alloc_locked _ _ r
      (locksOk_get (Sys.reach la events).scopes hlocks i h hi)
  · intro child parent rest hscopes
    have hstep := Sys.step_drop_eq (Sys.reach la events) child parent rest
      hscopes
    rw [hstep]
    refine ⟨rfl, ?_⟩
    have hwfd : (child.dropScope (Sys.reach la events).la).WF := by
      have hd := hbounds child (by rw [hscopes]; simp)
      exact ⟨hd.1, hd.2⟩
    exact scratch_alloc_zst _ _ hwfd rfl

/-- Witness for C4: after one `new_scope`, allocating from the root (index 1)
asserts; after dropping the child, the root is unlocked and allocates. -/
theorem spec_c4_innermost_only_witness :
    ((Sys.reach ⟨64, 1024, 64, 1024, 64⟩ [Event.newScope]).scopes.get
        ⟨1, by decide⟩).alloc
        (Sys.reach ⟨64, 1024, 64, 1024, 64⟩ [Event.newScope]).la (.pod 1 1) =
      (.error .scopeLocked,
       (Sys.reach ⟨64, 1024, 64, 1024, 64⟩ [Event.newScope]).la) ∧
    ((Sys.reach ⟨64, 1024, 64, 1024, 64⟩ [Event.newScope]).step
        .dropInner).scopes.head? =
      some ⟨64, [], false⟩ ∧
    ScopedScratch.alloc ⟨64, [], false⟩
        ((Sys.reach ⟨64, 1024, 64, 1024, 64⟩ [Event.newScope]).step
          .dropInner).la (.pod 0 1) =
      (.ok (((Sys.reach ⟨64, 1024, 64, 1024, 64⟩ [Event.newScope]).step
            .dropInner).la.nextAlloc, ⟨64, [], false⟩),
       ((Sys.reach ⟨64, 1024, 64, 1024, 64⟩ [Event.newScope]).step
          .dropInner).la) := by
  have h := spec_c4_innermost_only ⟨64, 1024, 64, 1024, 64⟩ [Event.newScope]
    (.pod 1 1) (by decide)
  have h2 := h.2 ⟨64, [], false⟩ ⟨64, [], true⟩ [] (by decide)
  exact ⟨h.1 1 (by decide) (by decide), h2.1, h2.2⟩
